import Mathlib

/-!
Verification of the prompt-save dialog logic (title extraction,
conversation-history validation and formatting, tag management).

The embedding models the component's script section:
- JavaScript strings are Lean `String`s (lists of characters); lengths and
  indices are counted in characters, which agrees with JavaScript's UTF-16
  code-unit counting on all inputs whose characters lie in the basic
  multilingual plane (all characters appearing in the component do).
- `String.prototype.trim` is modelled by `jsTrimS` below, dropping leading
  and trailing whitespace characters (the common core of the JavaScript
  whitespace set).
- `JSON.parse` is modelled by `parseJson`, a recursive-descent reading of the
  JSON grammar producing a `JsonValue`; parse failures return a non-empty
  error string, standing for the thrown `SyntaxError`'s message.
- `JSON.stringify(v, null, 2)` is modelled by `stringifyIndent2`; numbers are
  re-serialized from their source literal.
- `new Date().toLocaleDateString()` is modelled as an explicit `today`
  parameter, since it is the only impure input of `extractTitleFromContent`.
-/

/-- Whitespace test modelling the JavaScript whitespace class used by
`String.prototype.trim` and the regex class `\s` (space, tab, line feed,
carriage return, vertical tab, form feed, no-break space, BOM; the full
JavaScript set also holds the rarer Unicode space characters). -/
def jsWs (c : Char) : Bool :=
  c == ' ' || c == '\t' || c == '\n' || c == '\r' ||
  c == '\x0b' || c == '\x0c' || c == ' ' || c == '﻿'

/-- Model of `String.prototype.trim` on character lists: drop leading and
trailing whitespace. -/
def jsTrimL (l : List Char) : List Char :=
  ((l.dropWhile jsWs).reverse.dropWhile jsWs).reverse

/-- Model of `String.prototype.trim` on strings. -/
def jsTrimS (s : String) : String :=
  ⟨jsTrimL s.data⟩

/-- Values produced by `JSON.parse`: null, booleans, numbers (kept as their
source literal), strings, arrays and objects (fields in insertion order,
later duplicate keys overwriting the stored value as in JavaScript). -/
inductive JsonValue : Type where
  | null : JsonValue
  | bool (b : Bool) : JsonValue
  | num (lit : String) : JsonValue
  | str (s : String) : JsonValue
  | arr (l : List JsonValue) : JsonValue
  | obj (l : List (String × JsonValue)) : JsonValue

/-- Whitespace accepted between JSON tokens by `JSON.parse`. -/
def jsonWs (c : Char) : Bool :=
  c == ' ' || c == '\t' || c == '\n' || c == '\r'

/-- Skip JSON inter-token whitespace. -/
def skipJsonWs (l : List Char) : List Char :=
  l.dropWhile jsonWs

/-- Value of a hexadecimal digit, if the character is one. -/
def hexVal (c : Char) : Option Nat :=
  if '0' ≤ c ∧ c ≤ '9' then some (c.toNat - 48)
  else if 'a' ≤ c ∧ c ≤ 'f' then some (c.toNat - 87)
  else if 'A' ≤ c ∧ c ≤ 'F' then some (c.toNat - 55)
  else none

/-- Read the body of a JSON string literal after the opening quote,
returning the decoded characters and the input after the closing quote.
Escape sequences follow the JSON grammar; an unescaped control character is
rejected, as `JSON.parse` rejects it. -/
def parseStringBody : Nat → List Char → Except String (List Char × List Char)
  | 0, _ => .error "JSON string too long"
  | _ + 1, [] => .error "Unterminated string in JSON"
  | f + 1, c :: r =>
    if c == Char.ofNat 34 then .ok ([], r)
    else if c == '\\' then
      match r with
      | [] => .error "Unterminated string in JSON"
      | e :: r2 =>
        if e == Char.ofNat 34 ∨ e == '\\' ∨ e == '/' then
          match parseStringBody f r2 with
          | .ok (cs, rest) => .ok (e :: cs, rest)
          | .error m => .error m
        else if e == 'b' ∨ e == 'f' ∨ e == 'n' ∨ e == 'r' ∨ e == 't' then
          let d : Char :=
            if e == 'b' then '\x08' else if e == 'f' then '\x0c'
            else if e == 'n' then '\n' else if e == 'r' then '\r' else '\t'
          match parseStringBody f r2 with
          | .ok (cs, rest) => .ok (d :: cs, rest)
          | .error m => .error m
        else if e == 'u' then
          match r2 with
          | h1 :: h2 :: h3 :: h4 :: r3 =>
            match hexVal h1, hexVal h2, hexVal h3, hexVal h4 with
            | some a, some b, some cc, some d =>
              match parseStringBody f r3 with
              | .ok (cs, rest) =>
                .ok (Char.ofNat (((a * 16 + b) * 16 + cc) * 16 + d) :: cs, rest)
              | .error m => .error m
            | _, _, _, _ => .error "Bad Unicode escape in JSON"
          | _ => .error "Bad Unicode escape in JSON"
        else .error "Bad escaped character in JSON string"
    else if c.toNat < 32 then
      .error "Bad control character in JSON string literal"
    else
      match parseStringBody f r with
      | .ok (cs, rest) => .ok (c :: cs, rest)
      | .error m => .error m

/-- Read the optional exponent part of a JSON number, returning the
accumulated literal and the rest of the input. -/
def parseExpPart (lit : List Char) (l : List Char) :
    Except String (List Char × List Char) :=
  match l with
  | e :: r2 =>
    if e == 'e' ∨ e == 'E' then
      let (sgn, r3) :=
        match r2 with
        | '+' :: r4 => (['+'], r4)
        | '-' :: r4 => (['-'], r4)
        | _ => (([] : List Char), r2)
      let ds := r3.takeWhile Char.isDigit
      if ds.isEmpty then .error "Exponent part is missing a number in JSON"
      else .ok (lit ++ e :: sgn ++ ds, r3.dropWhile Char.isDigit)
    else .ok (lit, l)
  | [] => .ok (lit, l)

/-- Read the optional fraction and exponent parts of a JSON number after its
integer part, returning the accumulated literal and the rest of the input. -/
def parseNumberTail (lit : List Char) (l : List Char) :
    Except String (List Char × List Char) :=
  match l with
  | '.' :: r =>
    let ds := r.takeWhile Char.isDigit
    if ds.isEmpty then .error "Unterminated fractional number in JSON"
    else parseExpPart (lit ++ '.' :: ds) (r.dropWhile Char.isDigit)
  | _ => parseExpPart lit l

/-- Read a JSON number literal (sign, integer part, fraction, exponent),
returning its characters and the rest of the input. -/
def parseNumberLit (l : List Char) : Except String (List Char × List Char) :=
  let (sgn, r0) :=
    match l with
    | '-' :: r => (['-'], r)
    | _ => (([] : List Char), l)
  match r0 with
  | '0' :: r1 => parseNumberTail (sgn ++ ['0']) r1
  | c :: r1 =>
    if c.isDigit then
      let ds := r1.takeWhile Char.isDigit
      parseNumberTail (sgn ++ c :: ds) (r1.dropWhile Char.isDigit)
    else .error "Unexpected token in JSON"
  | [] => .error "No number after minus sign in JSON"

/-- Record a parsed object field: a later duplicate key overwrites the value
stored at the key's first position, as JavaScript property assignment does. -/
def insertField (fs : List (String × JsonValue)) (k : String) (v : JsonValue) :
    List (String × JsonValue) :=
  if fs.any (fun p => p.1 == k) then
    fs.map (fun p => if p.1 == k then (k, v) else p)
  else fs ++ [(k, v)]

mutual

/-- Model of the JSON value grammar accepted by `JSON.parse`, by fuel-bounded
recursive descent. -/
def parseVal : Nat → List Char → Except String (JsonValue × List Char)
  | 0, _ => .error "JSON input too deeply nested"
  | f + 1, l =>
    match skipJsonWs l with
    | [] => .error "Unexpected end of JSON input"
    | c :: r =>
      if c == Char.ofNat 34 then
        match parseStringBody (r.length + 1) r with
        | .ok (cs, rest) => .ok (.str ⟨cs⟩, rest)
        | .error m => .error m
      else if c == '[' then
        match skipJsonWs r with
        | ']' :: r2 => .ok (.arr [], r2)
        | r1 => parseArrItems f r1 []
      else if c == Char.ofNat 123 then
        match skipJsonWs r with
        | c2 :: r2 =>
          if c2 == Char.ofNat 125 then .ok (.obj [], r2)
          else parseObjItems f (c2 :: r2) []
        | [] => .error "Unexpected end of JSON input"
      else if c == 'n' then
        match r with
        | 'u' :: 'l' :: 'l' :: rest => .ok (.null, rest)
        | _ => .error "Unexpected token in JSON"
      else if c == 't' then
        match r with
        | 'r' :: 'u' :: 'e' :: rest => .ok (.bool true, rest)
        | _ => .error "Unexpected token in JSON"
      else if c == 'f' then
        match r with
        | 'a' :: 'l' :: 's' :: 'e' :: rest => .ok (.bool false, rest)
        | _ => .error "Unexpected token in JSON"
      else if c == '-' ∨ c.isDigit then
        match parseNumberLit (c :: r) with
        | .ok (lit, rest) => .ok (.num ⟨lit⟩, rest)
        | .error m => .error m
      else .error "Unexpected token in JSON"

/-- Read the elements of a non-empty JSON array, the opening bracket already
consumed. -/
def parseArrItems : Nat → List Char → List JsonValue →
    Except String (JsonValue × List Char)
  | 0, _, _ => .error "JSON input too deeply nested"
  | f + 1, l, acc =>
    match parseVal f l with
    | .error m => .error m
    | .ok (v, r) =>
      match skipJsonWs r with
      | ',' :: r2 => parseArrItems f r2 (acc ++ [v])
      | ']' :: r2 => .ok (.arr (acc ++ [v]), r2)
      | _ => .error "Expected comma or closing bracket after JSON array element"

/-- Read the members of a non-empty JSON object, the opening brace already
consumed. -/
def parseObjItems : Nat → List Char → List (String × JsonValue) →
    Except String (JsonValue × List Char)
  | 0, _, _ => .error "JSON input too deeply nested"
  | f + 1, l, acc =>
    match skipJsonWs l with
    | c :: r =>
      if c == Char.ofNat 34 then
        match parseStringBody (r.length + 1) r with
        | .error m => .error m
        | .ok (ks, r1) =>
          match skipJsonWs r1 with
          | ':' :: r2 =>
            match parseVal f r2 with
            | .error m => .error m
            | .ok (v, r3) =>
              match skipJsonWs r3 with
              | ',' :: r4 => parseObjItems f r4 (insertField acc ⟨ks⟩ v)
              | c5 :: r5 =>
                if c5 == Char.ofNat 125 then
                  .ok (.obj (insertField acc ⟨ks⟩ v), r5)
                else .error "Expected comma or closing brace after JSON member"
              | [] => .error "Expected comma or closing brace after JSON member"
          | _ => .error "Expected colon after JSON property name"
      else .error "Expected property name in JSON"
    | [] => .error "Unexpected end of JSON input"

end

/-- Model of `JSON.parse`: parse one value and require only whitespace after
it.  An `Except.error` stands for a thrown `SyntaxError` carrying the given
message. -/
def parseJson (s : String) : Except String JsonValue :=
  match parseVal (s.length + 2) s.data with
  | .error m => .error m
  | .ok (v, rest) =>
    match skipJsonWs rest with
    | [] => .ok v
    | _ => .error "Unexpected non-whitespace character after JSON data"

/-- True when a JSON number literal denotes zero: every digit of its mantissa
(the part before any exponent marker) is `0`. -/
def jsonNumIsZero (lit : String) : Bool :=
  (lit.data.takeWhile (fun c => !(c == 'e') && !(c == 'E'))).all
    (fun c => !c.isDigit || c == '0')

/-- JavaScript truthiness of a parsed JSON value (`null`, `false`, `0` and
the empty string are falsy; arrays and objects are truthy). -/
def isTruthy (v : JsonValue) : Bool :=
  match v with
  | .null => false
  | .bool b => b
  | .num lit => !(jsonNumIsZero lit)
  | .str s => !(s == "")
  | .arr _ => true
  | .obj _ => true

/-- Property lookup on a list of object fields (keys are unique after
`insertField`). -/
def getField (fs : List (String × JsonValue)) (k : String) : Option JsonValue :=
  match fs.find? (fun p => p.1 == k) with
  | some p => some p.2
  | none => none

/-- JavaScript property access `v[k]` on a parsed JSON value: defined only on
objects; on every other value (and for absent keys) the result is
`undefined`, modelled as `none`. -/
def jsGet (v : JsonValue) (k : String) : Option JsonValue :=
  match v with
  | .obj fs => getField fs k
  | _ => none

/-- Truthiness of the field `k` of `v` (`undefined` is falsy). -/
def truthyField (v : JsonValue) (k : String) : Bool :=
  match jsGet v k with
  | some x => isTruthy x
  | none => false

/-- Model of `['user', 'assistant', 'system'].includes(item.role)`:
strict equality against the three role strings. -/
def roleAllowed (v : JsonValue) : Bool :=
  match jsGet v "role" with
  | some (.str r) => r == "user" || r == "assistant" || r == "system"
  | _ => false

/-- Error text for a message lacking a truthy `role` or `content` field,
with its 1-based position. -/
def missingMsg (n : Nat) : String :=
  "第" ++ toString n ++ "条消息缺少role或content字段"

/-- Error text for a message whose `role` is not one of the three allowed
values, with its 1-based position. -/
def roleMsg (n : Nat) : String :=
  "第" ++ toString n ++ "条消息的role必须是user、assistant或system"

/-- Model of `parsed[i] || {}`: a falsy element is replaced by an empty
object before the field checks. -/
def coerceItem (v : JsonValue) : JsonValue :=
  if isTruthy v then v else .obj []

/-- The element loop of `validateConversationJson`: each element is coerced
to an empty object when falsy (`parsed[i] || {}`), then checked for truthy
`role` and `content` fields and for an allowed role value; the first
violation is reported with the element's 1-based index. -/
def checkItems : List JsonValue → Nat → String
  | [], _ => ""
  | v :: rest, i =>
    if !(truthyField (coerceItem v) "role") || !(truthyField (coerceItem v) "content") then
      missingMsg (i + 1)
    else if !(roleAllowed (coerceItem v)) then roleMsg (i + 1)
    else checkItems rest (i + 1)

/-- Model of `validateConversationJson`: empty and whitespace-only input is
valid; otherwise the input is parsed as JSON (a parse failure reports the
parser's message, or a generic message when it is absent), must be an array,
and every element must pass `checkItems`.  The empty string is the
no-error sentinel. -/
def validateConversationJson (jsonStr : String) : String :=
  if (jsTrimS jsonStr).isEmpty then ""
  else
    match parseJson jsonStr with
    | .ok parsed =>
      match parsed with
      | .arr l => checkItems l 0
      | _ => "必须是数组格式"
    | .error e => if e == "" then "JSON格式错误" else e

/-- Escape one character for a JSON string literal, as
`JSON.stringify` does. -/
def jsonEscapeChar (c : Char) : List Char :=
  if c == Char.ofNat 34 then ['\\', Char.ofNat 34]
  else if c == '\\' then ['\\', '\\']
  else if c == '\x08' then ['\\', 'b']
  else if c == '\x0c' then ['\\', 'f']
  else if c == '\n' then ['\\', 'n']
  else if c == '\r' then ['\\', 'r']
  else if c == '\t' then ['\\', 't']
  else if c.toNat < 32 then
    ['\\', 'u', '0', '0',
     (if c.toNat / 16 < 10 then Char.ofNat (48 + c.toNat / 16)
      else Char.ofNat (87 + c.toNat / 16)),
     (if c.toNat % 16 < 10 then Char.ofNat (48 + c.toNat % 16)
      else Char.ofNat (87 + c.toNat % 16))]
  else [c]

/-- Quote and escape a string as a JSON string literal. -/
def jsonQuote (s : String) : String :=
  ⟨Char.ofNat 34 :: (s.data.map jsonEscapeChar).flatten ++ [Char.ofNat 34]⟩

/-- Indentation of `2 * n` spaces. -/
def pad2 (n : Nat) : String :=
  ⟨List.replicate (2 * n) ' '⟩

mutual

/-- Model of `JSON.stringify(v, null, 2)` at nesting level `lvl` (numbers are
re-serialized from their source literal). -/
def stringifyV : Nat → JsonValue → String
  | _, .null => "null"
  | _, .bool b => if b then "true" else "false"
  | _, .num lit => lit
  | _, .str s => jsonQuote s
  | _, .arr [] => "[]"
  | lvl, .arr (v :: vs) =>
    "[\n" ++ String.intercalate ",\n" (stringifyItems (lvl + 1) (v :: vs)) ++
      "\n" ++ pad2 lvl ++ "]"
  | _, .obj [] => "\x7b\x7d"
  | lvl, .obj (f :: fs) =>
    "\x7b\n" ++ String.intercalate ",\n" (stringifyFields (lvl + 1) (f :: fs)) ++
      "\n" ++ pad2 lvl ++ "\x7d"

/-- Serialized array elements, each on its own indented line. -/
def stringifyItems : Nat → List JsonValue → List String
  | _, [] => []
  | lvl, v :: vs => (pad2 lvl ++ stringifyV lvl v) :: stringifyItems lvl vs

/-- Serialized object members, each on its own indented line. -/
def stringifyFields : Nat → List (String × JsonValue) → List String
  | _, [] => []
  | lvl, (k, v) :: fs =>
    (pad2 lvl ++ jsonQuote k ++ ": " ++ stringifyV lvl v) :: stringifyFields lvl fs

end

/-- Model of `JSON.stringify(parsed, null, 2)` at top level. -/
def stringifyIndent2 (v : JsonValue) : String :=
  stringifyV 0 v

/-- The two pieces of component state read and written by
`formatConversationJson`. -/
structure SaveFormState where
  conversationHistory : String
  conversationFormatError : String

/-- Model of `formatConversationJson`: blank history is left alone; valid
JSON is replaced by its 2-space-indented re-serialization and the error is
cleared; a parse failure is caught and recorded as a formatting error,
leaving the history unchanged. -/
def formatConversationJson (s : SaveFormState) : SaveFormState :=
  if (jsTrimS s.conversationHistory).isEmpty then s
  else
    match parseJson s.conversationHistory with
    | .ok parsed =>
      { conversationHistory := stringifyIndent2 parsed,
        conversationFormatError := "" }
    | .error _ =>
      { s with conversationFormatError := "JSON格式错误，无法格式化" }

/-- The two pieces of component state read and written by `addTag`. -/
structure TagFormState where
  tags : List String
  currentTag : String

/-- Model of `addTag`: the input is trimmed and appended only when it is
non-empty, not already present, and fewer than 10 tags are stored; on
success the input field is cleared. -/
def addTag (s : TagFormState) : TagFormState :=
  let tag := jsTrimS s.currentTag
  if tag ≠ "" ∧ tag ∉ s.tags ∧ s.tags.length < 10 then
    { tags := s.tags ++ [tag], currentTag := "" }
  else s

/-- Model of `removeTag`: every occurrence of the tag is filtered out. -/
def removeTag (s : TagFormState) (tag : String) : TagFormState :=
  { s with tags := s.tags.filter (fun t => !(t == tag)) }

/-- One user interaction with the tag editor. -/
inductive TagOp : Type where
  | add (raw : String) : TagOp
  | remove (tag : String) : TagOp

/-- Effect of one tag-editor interaction on the tag list. -/
def applyTagOp (tags : List String) : TagOp → List String
  | .add raw => (addTag { tags := tags, currentTag := raw }).tags
  | .remove tag => (removeTag { tags := tags, currentTag := "" } tag).tags

/-- Effect of a sequence of tag-editor interactions on the tag list. -/
def applyTagOps (tags : List String) (ops : List TagOp) : List String :=
  ops.foldl applyTagOp tags

/-- The tag-list invariant of claim C9: no duplicates, no empty or
whitespace-only entries, at most 10 entries. -/
def TagInv (tags : List String) : Prop :=
  tags.Nodup ∧ (∀ t ∈ tags, jsTrimS t ≠ "") ∧ tags.length ≤ 10

/-- Pass condition for one element of the conversation array, as the code
checks it. -/
def itemOk (v : JsonValue) : Bool :=
  truthyField (coerceItem v) "role" && truthyField (coerceItem v) "content" &&
    roleAllowed (coerceItem v)

/-- Spec-side reading of the error reported for a failing element at 0-based
index `i`: the missing-field check comes before the role-value check, and
the element is referenced as message `i + 1`. -/
def specItemError (i : Nat) (v : JsonValue) : String :=
  if !(truthyField (coerceItem v) "role") || !(truthyField (coerceItem v) "content") then
    missingMsg (i + 1)
  else roleMsg (i + 1)

/-- Spec-side reading of a well-formed conversation turn (claim C1): a
truthy `role` field whose value is one of the three role strings, and a
truthy `content` field. -/
def SpecValidTurn (v : JsonValue) : Prop :=
  (∃ r, jsGet v "role" = some r ∧ isTruthy r = true ∧
     (r = .str "user" ∨ r = .str "assistant" ∨ r = .str "system")) ∧
  (∃ c, jsGet v "content" = some c ∧ isTruthy c = true)

/-- Markup input whose element carries `title="role"` as its first
attribute, with element content `t` (the family used for the amended claim
C6). -/
def c6Input (t : List Char) : List Char :=
  "<div title=\x22role\x22>".data ++ t ++ "</div>".data

/-- Markup input with a single inter-tag segment `t` (the family used for
the amended claim C7). -/
def c7Input (t : List Char) : List Char :=
  "<x>".data ++ t ++ "</x>".data


/-- Word-character test modelling the regex class `\w`. -/
def isWordChar (c : Char) : Bool :=
  decide (('a' ≤ c ∧ c ≤ 'z') ∨ ('A' ≤ c ∧ c ≤ 'Z') ∨ ('0' ≤ c ∧ c ≤ '9') ∨ c = '_')

/-- Case-insensitive literal match (ASCII folding, as the `i` flag
canonicalizes the ASCII letters appearing in the component's patterns):
if `l` starts with `pat`, return the rest of `l`. -/
def stripPrefixCI : List Char → List Char → Option (List Char)
  | [], l => some l
  | _ :: _, [] => none
  | p :: ps, c :: cs => if c.toLower == p.toLower then stripPrefixCI ps cs else none

/-- Case-insensitive prefix test. -/
def ciHasPrefix (pat l : List Char) : Bool :=
  match stripPrefixCI pat l with
  | some _ => true
  | none => false

/-- Line terminators not matched by the regex `.` without the `s` flag. -/
def isLineTerm (c : Char) : Bool :=
  c == '\n' || c == '\r' || c == ' ' || c == ' '

/-- The regex tail `[^>]*>([^<]+)`: skip to the first `>`, then capture the
non-empty run of characters up to the next `<`. -/
def tailCapture (r : List Char) : Option (List Char) :=
  match r.dropWhile (fun c => !(c == '>')) with
  | '>' :: r2 =>
    let cap := r2.takeWhile (fun c => !(c == '<'))
    if cap.isEmpty then none else some cap
  | _ => none

/-- The lazy part `(.*?)<\/title>` of the `<title>` pattern: capture up to
the nearest case-insensitive `</title>`, failing on a line terminator (the
regex `.` does not match one) or at the end of input. -/
def lazyTitleClose : List Char → Option (List Char)
  | [] => none
  | c :: r =>
    if ciHasPrefix "</title>".data (c :: r) then some []
    else if isLineTerm c then none
    else
      match lazyTitleClose r with
      | some cs => some (c :: cs)
      | none => none

/-- Match of `/<title[^>]*>(.*?)<\/title>/i` at the head of the input,
returning the capture (which may be empty). -/
def matchTitleAt : List Char → Option (List Char)
  | [] => none
  | c :: r =>
    if c == '<' then
      match stripPrefixCI "title".data r with
      | none => none
      | some r1 =>
        match r1.dropWhile (fun c2 => !(c2 == '>')) with
        | '>' :: r2 => lazyTitleClose r2
        | _ => none
    else none

/-- Match of `/<\w+\s+ATTR=["']role["'][^>]*>([^<]+)/i` at the head of the
input: tag name, whitespace, then the attribute as the first thing after it. -/
def matchAttrAt (attr : List Char) : List Char → Option (List Char)
  | [] => none
  | c :: r =>
    if c == '<' then
      if (r.takeWhile isWordChar).isEmpty then none
      else
        let r1 := r.dropWhile isWordChar
        if (r1.takeWhile jsWs).isEmpty then none
        else
          match stripPrefixCI (attr ++ ['=']) (r1.dropWhile jsWs) with
          | none => none
          | some r3 =>
            match r3 with
            | q :: r4 =>
              if q == Char.ofNat 34 || q == Char.ofNat 39 then
                match stripPrefixCI "role".data r4 with
                | none => none
                | some r5 =>
                  match r5 with
                  | q2 :: r6 =>
                    if q2 == Char.ofNat 34 || q2 == Char.ofNat 39 then
                      tailCapture r6
                    else none
                  | [] => none
              else none
            | [] => none
    else none

/-- The regex tail `\s*([^<]+)` with its backtracking: prefer skipping the
maximal whitespace run; when nothing capturable follows it, give back the
last whitespace character as the capture. -/
def wsCapture (t : List Char) : Option (List Char) :=
  let w := t.takeWhile jsWs
  match t.dropWhile jsWs with
  | c :: rest =>
    if c == '<' then
      match w.getLast? with
      | some lc => some [lc]
      | none => none
    else some ((c :: rest).takeWhile (fun x => !(x == '<')))
  | [] =>
    match w.getLast? with
    | some lc => some [lc]
    | none => none

/-- The regex tail `:?\s*([^<]+)` with its backtracking: prefer consuming a
colon, and retry without it when the rest fails. -/
def roleColonCapture (r5 : List Char) : Option (List Char) :=
  match r5 with
  | ':' :: rest =>
    (match wsCapture rest with
     | some cap => some cap
     | none => wsCapture (':' :: rest))
  | _ => wsCapture r5

/-- Match of `/<section[^>]*>[\s\n]*role:?\s*([^<]+)/i` at the head of the
input. -/
def matchSectionAt : List Char → Option (List Char)
  | [] => none
  | c :: r =>
    if c == '<' then
      match stripPrefixCI "section".data r with
      | none => none
      | some r1 =>
        match r1.dropWhile (fun c2 => !(c2 == '>')) with
        | '>' :: r2 =>
          match stripPrefixCI "role".data (r2.dropWhile jsWs) with
          | none => none
          | some r5 => roleColonCapture r5
        | _ => none
    else none

/-- Match of `/<role[^>]*>([^<]+)/i` at the head of the input. -/
def matchRoleElemAt : List Char → Option (List Char)
  | [] => none
  | c :: r =>
    if c == '<' then
      match stripPrefixCI "role".data r with
      | none => none
      | some r1 => tailCapture r1
    else none

/-- Match of `/>([^<]+)</` at the head of the input, returning the whole
match `>…<` (as `match[0]` is used by the code). -/
def matchTextAt : List Char → Option (List Char)
  | [] => none
  | c :: r =>
    if c == '>' then
      let cap := r.takeWhile (fun x => !(x == '<'))
      if cap.isEmpty then none
      else
        match r.dropWhile (fun x => !(x == '<')) with
        | '<' :: _ => some ('>' :: cap ++ ['<'])
        | _ => none
    else none

/-- Leftmost match: try the matcher at every start position in order, as the
regex engine scans `String.prototype.match` input. -/
def findFirst (f : List Char → Option (List Char)) : List Char → Option (List Char)
  | [] => none
  | c :: r =>
    match f (c :: r) with
    | some x => some x
    | none => findFirst f r

/-- Strip of the leading-`Role:` replace `/^Role:\s*/i` applied to the
`<title>` capture. -/
def stripRoleColonPfx (l : List Char) : List Char :=
  match stripPrefixCI "role:".data l with
  | some r => r.dropWhile jsWs
  | none => l

/-- Strip of the leading-role replace `/^(role|角色)[:：]\s*/i` applied to
the role-pattern captures. -/
def stripRoleCnPfx (l : List Char) : List Char :=
  match stripPrefixCI "role".data l with
  | some (c :: r) =>
    if c == ':' || c == '：' then r.dropWhile jsWs else l
  | _ =>
    match stripPrefixCI "角色".data l with
    | some (c :: r) => if c == ':' || c == '：' then r.dropWhile jsWs else l
    | _ => l

/-- Cleanup applied to the `<title>` capture: trim, strip `Role:`, trim. -/
def titleCleanup (cap : List Char) : List Char :=
  jsTrimL (stripRoleColonPfx (jsTrimL cap))

/-- Cleanup applied to a role-pattern capture: trim, strip `role:`/`角色:`,
trim. -/
def roleCleanup (cap : List Char) : List Char :=
  jsTrimL (stripRoleCnPfx (jsTrimL cap))

/-- The `rolePatterns` array, in source order. -/
def rolePatterns : List (List Char → Option (List Char)) :=
  [matchAttrAt "title".data, matchAttrAt "name".data, matchAttrAt "id".data,
   matchAttrAt "type".data, matchSectionAt, matchRoleElemAt]

/-- The `for (const pattern of rolePatterns)` loop: first pattern whose
cleaned capture is non-empty wins; a match whose cleanup is empty moves on
to the next pattern. -/
def tryRolePatterns : List (List Char → Option (List Char)) → List Char → List Char
  | [], _ => []
  | p :: ps, content =>
    match findFirst p content with
    | some cap =>
      let t := roleCleanup cap
      if t.isEmpty then tryRolePatterns ps content else t
    | none => tryRolePatterns ps content

/-- Step 3 of the markup path: first `>…<` match with all angle brackets
removed and the result trimmed. -/
def step3Title (content : List Char) : List Char :=
  match findFirst matchTextAt content with
  | some m0 => jsTrimL (m0.filter (fun c => !(c == '>') && !(c == '<')))
  | none => []

/-- The markup path: `<title>` content (when the raw capture is non-empty
and survives cleanup), then the role patterns, then the first inter-tag
text. -/
def xmlTitle (content : List Char) : List Char :=
  let t1 :=
    match findFirst matchTitleAt content with
    | some cap => if cap.isEmpty then [] else titleCleanup cap
    | none => []
  if !t1.isEmpty then t1
  else
    let t2 := tryRolePatterns rolePatterns content
    if !t2.isEmpty then t2 else step3Title content

/-- The replace `/^#{1,6}\s*/`: up to six leading hashes and following
whitespace. -/
def stripHashes (t : List Char) : List Char :=
  let ks := t.takeWhile (fun c => c == '#')
  if ks.isEmpty then t
  else (t.drop (min 6 ks.length)).dropWhile jsWs

/-- The replace `/^\*+\s*/`. -/
def stripStars (t : List Char) : List Char :=
  if (t.takeWhile (fun c => c == '*')).isEmpty then t
  else (t.dropWhile (fun c => c == '*')).dropWhile jsWs

/-- The replace `/^-+\s*/`. -/
def stripDashes (t : List Char) : List Char :=
  if (t.takeWhile (fun c => c == '-')).isEmpty then t
  else (t.dropWhile (fun c => c == '-')).dropWhile jsWs

/-- The replace `/^\d+\.\s*/`. -/
def stripNumDot (t : List Char) : List Char :=
  let ds := t.takeWhile Char.isDigit
  if ds.isEmpty then t
  else
    match t.drop ds.length with
    | '.' :: r => r.dropWhile jsWs
    | _ => t

/-- The chained markdown-marker strips applied to a trimmed line, followed
by a trim. -/
def mdLineStrip (t : List Char) : List Char :=
  jsTrimL (stripNumDot (stripDashes (stripStars (stripHashes t))))

/-- Split on newline characters, as `String.prototype.split('\n')`. -/
def splitLines : List Char → List (List Char)
  | [] => [[]]
  | c :: r =>
    let rest := splitLines r
    if c == '\n' then [] :: rest
    else
      match rest with
      | s :: ss => (c :: s) :: ss
      | [] => [[c]]

/-- The plain-text line loop: first non-blank line yielding a non-empty
title after either the `# Role:` extraction (which takes `substring(8)`)
or the markdown-marker strips. -/
def mdTitleLoop : List (List Char) → List Char
  | [] => []
  | line :: rest =>
    let t := jsTrimL line
    if t.isEmpty then mdTitleLoop rest
    else if "# Role:".data.isPrefixOf t then
      let rc := jsTrimL (t.drop 8)
      if rc.isEmpty then mdTitleLoop rest else rc
    else
      let a := mdLineStrip t
      if a.isEmpty then mdTitleLoop rest else a

/-- The plain-text path: the line loop over the trimmed content's lines. -/
def mdTitle (content : List Char) : List Char :=
  mdTitleLoop (splitLines (jsTrimL content))

/-- The date-based fallback title `` `提示词_${new Date().toLocaleDateString()}` ``,
with the date an explicit parameter. -/
def fallbackTitle (today : String) : String :=
  "提示词_" ++ today

/-- The heuristic chain of `extractTitleFromContent` before the fallback and
the truncation: the markup path when the trimmed content starts with `<`,
else the plain-text path.  The markup path reads the original (untrimmed)
content, the plain-text path the trimmed content, as in the source. -/
def heuristicTitleL (content : List Char) : List Char :=
  match jsTrimL content with
  | '<' :: _ => xmlTitle content
  | _ => mdTitle content

/-- The title reaching the truncation step: the heuristic result, or the
date-based fallback when it is empty. -/
def preTruncTitle (today content : String) : String :=
  let a := heuristicTitleL content.data
  if a.isEmpty then fallbackTitle today else ⟨a⟩

/-- The final length bound: over 50 characters, keep the first 50 and append
an ellipsis marker. -/
def truncate50 (s : String) : String :=
  if 50 < s.data.length then ⟨s.data.take 50 ++ "...".data⟩ else s

/-- Model of `extractTitleFromContent`: blank content returns the fallback
immediately (skipping the truncation); otherwise the heuristic chain runs,
the fallback replaces an empty result, and the truncation bound applies. -/
def extractTitleFromContent (today content : String) : String :=
  if (jsTrimL content.data).isEmpty then fallbackTitle today
  else truncate50 (preTruncTitle today content)

/-! Basic facts about strings and trimming used throughout. -/

theorem mk_ne_empty {l : List Char} (h : l ≠ []) : (⟨l⟩ : String) ≠ "" := by
  intro hc
  exact h (congrArg String.data hc)

theorem fallbackTitle_ne_empty (today : String) : fallbackTitle today ≠ "" := by
  intro hc
  have hd := congrArg String.data hc
  rw [fallbackTitle, String.data_append] at hd
  exact List.cons_ne_nil _ _ hd

theorem jsTrimS_eq_empty_iff (s : String) : jsTrimS s = "" ↔ (jsTrimL s.data).isEmpty = true := by
  constructor
  · intro h
    have hd := congrArg String.data h
    simp only [jsTrimS] at hd
    simp [List.isEmpty_iff, hd]
  · intro h
    rw [List.isEmpty_iff] at h
    simp [jsTrimS, h]

theorem truncate50_ne_empty (s : String) (h : s ≠ "") : truncate50 s ≠ "" := by
  unfold truncate50
  split
  · apply mk_ne_empty
    simp [List.append_eq_nil]
  · exact h

theorem preTruncTitle_ne_empty (today content : String) :
    preTruncTitle today content ≠ "" := by
  show (if (heuristicTitleL content.data).isEmpty = true then fallbackTitle today
        else (⟨heuristicTitleL content.data⟩ : String)) ≠ ""
  split
  · exact fallbackTitle_ne_empty today
  · apply mk_ne_empty
    rename_i ha
    simpa [List.isEmpty_iff] using ha

/-- Claim C2: `extractTitleFromContent` never fails and always returns a
non-empty string; blank input returns the date-based fallback directly, and
the same fallback (subject to the final length bound, which never bites for
real locale date strings) is used whenever the heuristic chain yields
nothing. -/
theorem extractTitle_total (today content : String) :
    extractTitleFromContent today content ≠ "" ∧
    (jsTrimS content = "" → extractTitleFromContent today content = fallbackTitle today) ∧
    (heuristicTitleL content.data = [] → (fallbackTitle today).length ≤ 50 →
      extractTitleFromContent today content = fallbackTitle today) := by
  refine ⟨?_, ?_, ?_⟩
  · unfold extractTitleFromContent
    split
    · exact fallbackTitle_ne_empty today
    · exact truncate50_ne_empty _ (preTruncTitle_ne_empty today content)
  · intro h
    rw [jsTrimS_eq_empty_iff] at h
    unfold extractTitleFromContent
    rw [if_pos h]
  · intro hh hlen
    unfold extractTitleFromContent
    split
    · rfl
    · have hp : preTruncTitle today content = fallbackTitle today := by
        unfold preTruncTitle
        rw [hh]
        rfl
      rw [hp]
      unfold truncate50
      rw [if_neg]
      intro hc
      have : (fallbackTitle today).length = (fallbackTitle today).data.length := rfl
      omega

/-- Closed instance of `extractTitle_total` discharging its hypotheses. -/
theorem extractTitle_total_w :
    extractTitleFromContent "2024/1/1" "" = fallbackTitle "2024/1/1" :=
  (extractTitle_total "2024/1/1" "").2.1 (by decide)

/-- Claim C3: on non-blank input, a pre-truncation title longer than 50
characters is cut to its first 50 characters with an ellipsis marker
appended (total length 53, exceeding the bound), and a title of at most 50
characters is returned unchanged. -/
theorem extractTitle_truncation (today content : String)
    (h : jsTrimS content ≠ "") :
    (50 < (preTruncTitle today content).length →
      extractTitleFromContent today content =
        ⟨(preTruncTitle today content).data.take 50 ++ "...".data⟩ ∧
      (extractTitleFromContent today content).length = 53) ∧
    ((preTruncTitle today content).length ≤ 50 →
      extractTitleFromContent today content = preTruncTitle today content) := by
  have hne : (jsTrimL content.data).isEmpty ≠ true := by
    intro hc
    exact h ((jsTrimS_eq_empty_iff content).2 hc)
  have hext : extractTitleFromContent today content = truncate50 (preTruncTitle today content) := by
    unfold extractTitleFromContent
    rw [if_neg hne]
  have hlen : (preTruncTitle today content).length = (preTruncTitle today content).data.length := rfl
  constructor
  · intro hgt
    rw [hext]
    unfold truncate50
    rw [if_pos (by omega)]
    refine ⟨rfl, ?_⟩
    show (((preTruncTitle today content).data.take 50 ++ "...".data) : List Char).length = 53
    rw [List.length_append, List.length_take]
    have hd : ("...".data).length = 3 := rfl
    omega
  · intro hle
    rw [hext]
    unfold truncate50
    rw [if_neg (by omega)]

/-- Closed instance of `extractTitle_truncation` discharging its hypotheses. -/
theorem extractTitle_truncation_w :
    extractTitleFromContent "D" "aaaaaaaaaaaaaaaaaaaaaaaaaaaaaaaaaaaaaaaaaaaaaaaaaaaaaaaaaaaa" =
      ⟨(preTruncTitle "D" "aaaaaaaaaaaaaaaaaaaaaaaaaaaaaaaaaaaaaaaaaaaaaaaaaaaaaaaaaaaa").data.take 50 ++ "...".data⟩ ∧
    (extractTitleFromContent "D" "aaaaaaaaaaaaaaaaaaaaaaaaaaaaaaaaaaaaaaaaaaaaaaaaaaaaaaaaaaaa").length = 53 :=
  (extractTitle_truncation "D" "aaaaaaaaaaaaaaaaaaaaaaaaaaaaaaaaaaaaaaaaaaaaaaaaaaaaaaaaaaaa"
    (by decide)).1 (by decide)

/-- Claim C5: the `# Role:` heading is recognised, but `substring(8)` skips
one character past the 7-character heading, so the character immediately
after the colon is dropped whenever it is not whitespace; with a space after
the colon the trim hides the slip. -/
theorem roleHeading_substring8 :
    extractTitleFromContent "1/1" "# Role:Assistant" = "ssistant" ∧
    extractTitleFromContent "1/1" "# Role: Assistant" = "Assistant" := by
  constructor
  · rfl
  · rfl

/-- Claim C8: on non-blank, unparsable history the formatter records a
formatting error and leaves the stored history unchanged; on valid JSON it
replaces the history with the 2-space-indented re-serialization and clears
the error. -/
theorem formatConversation_atomic (s : SaveFormState) :
    (∀ e, jsTrimS s.conversationHistory ≠ "" →
       parseJson s.conversationHistory = .error e →
       (formatConversationJson s).conversationHistory = s.conversationHistory ∧
       (formatConversationJson s).conversationFormatError = "JSON格式错误，无法格式化") ∧
    (∀ v, jsTrimS s.conversationHistory ≠ "" →
       parseJson s.conversationHistory = .ok v →
       (formatConversationJson s).conversationHistory = stringifyIndent2 v ∧
       (formatConversationJson s).conversationFormatError = "") := by
  constructor
  · intro e hne hp
    have hb : (jsTrimS s.conversationHistory).isEmpty ≠ true := by
      intro hc
      rw [String.isEmpty_iff] at hc
      exact hne hc
    unfold formatConversationJson
    rw [if_neg hb, hp]
    exact ⟨rfl, rfl⟩
  · intro v hne hp
    have hb : (jsTrimS s.conversationHistory).isEmpty ≠ true := by
      intro hc
      rw [String.isEmpty_iff] at hc
      exact hne hc
    unfold formatConversationJson
    rw [if_neg hb, hp]
    exact ⟨rfl, rfl⟩

/-- Closed instance of `formatConversation_atomic` discharging its
hypotheses. -/
theorem formatConversation_atomic_w :
    (formatConversationJson { conversationHistory := "[1", conversationFormatError := "" }).conversationHistory = "[1" ∧
    (formatConversationJson { conversationHistory := "[1", conversationFormatError := "" }).conversationFormatError = "JSON格式错误，无法格式化" :=
  (formatConversation_atomic { conversationHistory := "[1", conversationFormatError := "" }).1
    "Expected comma or closing bracket after JSON array element" (by decide) rfl

theorem missingMsg_ne_empty (n : Nat) : missingMsg n ≠ "" := by
  intro h
  have hd := congrArg String.data h
  rw [missingMsg, String.data_append, String.data_append] at hd
  simp at hd

theorem roleMsg_ne_empty (n : Nat) : roleMsg n ≠ "" := by
  intro h
  have hd := congrArg String.data h
  rw [roleMsg, String.data_append, String.data_append] at hd
  simp at hd

theorem checkItems_cons_of_ok {v : JsonValue} (rest : List JsonValue) (k : Nat)
    (h : itemOk v = true) : checkItems (v :: rest) k = checkItems rest (k + 1) := by
  rw [itemOk, Bool.and_eq_true, Bool.and_eq_true] at h
  obtain ⟨⟨hA, hB⟩, hC⟩ := h
  simp [checkItems, hA, hB, hC]

theorem checkItems_cons_of_bad {v : JsonValue} (rest : List JsonValue) (k : Nat)
    (h : itemOk v = false) : checkItems (v :: rest) k = specItemError k v := by
  by_cases h1 : (!(truthyField (coerceItem v) "role") ||
      !(truthyField (coerceItem v) "content")) = true
  · simp [checkItems, specItemError, h1]
  · have hAB := h1
    simp only [Bool.or_eq_true, Bool.not_eq_true'] at hAB
    push_neg at hAB
    have hA : truthyField (coerceItem v) "role" = true := by
      cases hx : truthyField (coerceItem v) "role" with
      | true => rfl
      | false => exact absurd hx hAB.1
    have hB : truthyField (coerceItem v) "content" = true := by
      cases hx : truthyField (coerceItem v) "content" with
      | true => rfl
      | false => exact absurd hx hAB.2
    have hC : roleAllowed (coerceItem v) = false := by
      rw [itemOk, hA, hB] at h
      simpa using h
    simp [checkItems, specItemError, hA, hB, hC]

theorem checkItems_eq_empty_iff (l : List JsonValue) :
    ∀ k, checkItems l k = "" ↔ ∀ v ∈ l, itemOk v = true := by
  induction l with
  | nil => intro k; simp [checkItems]
  | cons x rest ih =>
    intro k
    by_cases hx : itemOk x = true
    · rw [checkItems_cons_of_ok rest k hx, ih (k + 1)]
      constructor
      · intro h v hv
        rcases List.mem_cons.1 hv with h1 | h2
        · rw [h1]; exact hx
        · exact h v h2
      · intro h v hv
        exact h v (List.mem_cons_of_mem x hv)
    · have hxf : itemOk x = false := by
        cases h2 : itemOk x with
        | true => exact absurd h2 hx
        | false => rfl
      rw [checkItems_cons_of_bad rest k hxf]
      constructor
      · intro h
        exfalso
        rw [specItemError] at h
        split at h
        · exact missingMsg_ne_empty _ h
        · exact roleMsg_ne_empty _ h
      · intro h
        exact absurd (h x (List.mem_cons_self x rest)) hx

theorem checkItems_first (l : List JsonValue) :
    ∀ k i v, l[i]? = some v → itemOk v = false →
      (∀ j w, j < i → l[j]? = some w → itemOk w = true) →
      checkItems l k = specItemError (k + i) v := by
  induction l with
  | nil => intro k i v hget; simp at hget
  | cons x rest ih =>
    intro k i v hget hbad hpre
    cases i with
    | zero =>
      have hv : x = v := by simpa using hget
      subst hv
      simpa using checkItems_cons_of_bad rest k hbad
    | succ i =>
      have hx : itemOk x = true := hpre 0 x (by omega) (by simp)
      rw [checkItems_cons_of_ok rest k hx]
      have hget' : rest[i]? = some v := by simpa using hget
      have hpre' : ∀ j w, j < i → rest[j]? = some w → itemOk w = true := by
        intro j w hj hw
        exact hpre (j + 1) w (by omega) (by simpa using hw)
      have harith : k + 1 + i = k + (i + 1) := by omega
      rw [ih (k + 1) i v hget' hbad hpre', harith]

theorem jsGet_of_falsy {v : JsonValue} (h : isTruthy v = false) (k : String) :
    jsGet v k = none := by
  cases v <;> simp_all [jsGet, isTruthy]

theorem itemOk_iff_specValidTurn (v : JsonValue) : itemOk v = true ↔ SpecValidTurn v := by
  by_cases ht : isTruthy v = true
  · have hc : coerceItem v = v := by simp [coerceItem, ht]
    rw [itemOk, hc, SpecValidTurn]
    constructor
    · intro h
      rw [Bool.and_eq_true, Bool.and_eq_true] at h
      obtain ⟨⟨hA, hB⟩, hC⟩ := h
      cases hr : jsGet v "role" with
      | none => rw [truthyField, hr] at hA; cases hA
      | some x =>
        cases x with
        | str r =>
          have htr : isTruthy (.str r) = true := by rw [truthyField, hr] at hA; exact hA
          have hmem : r = "user" ∨ r = "assistant" ∨ r = "system" := by
            rw [roleAllowed, hr] at hC
            simp at hC
            tauto
          have hmem2 : (JsonValue.str r) = .str "user" ∨ (JsonValue.str r) = .str "assistant" ∨
              (JsonValue.str r) = .str "system" := by
            rcases hmem with h1 | h1 | h1
            · exact Or.inl (by rw [h1])
            · exact Or.inr (Or.inl (by rw [h1]))
            · exact Or.inr (Or.inr (by rw [h1]))
          cases hcn : jsGet v "content" with
          | none => rw [truthyField, hcn] at hB; cases hB
          | some c =>
            constructor
            · exact ⟨.str r, rfl, htr, hmem2⟩
            · exact ⟨c, rfl, by rw [truthyField, hcn] at hB; exact hB⟩
        | null => rw [roleAllowed, hr] at hC; cases hC
        | bool b => rw [roleAllowed, hr] at hC; cases hC
        | num lit => rw [roleAllowed, hr] at hC; cases hC
        | arr a => rw [roleAllowed, hr] at hC; cases hC
        | obj o => rw [roleAllowed, hr] at hC; cases hC
    · intro h
      obtain ⟨⟨r, hr, htr, hmem⟩, ⟨c, hcn, htc⟩⟩ := h
      have hA : truthyField v "role" = true := by rw [truthyField, hr]; exact htr
      have hB : truthyField v "content" = true := by rw [truthyField, hcn]; exact htc
      have hC : roleAllowed v = true := by
        rw [roleAllowed, hr]
        rcases hmem with h1 | h1 | h1 <;> rw [h1] <;> rfl
      rw [hA, hB, hC]
      rfl
  · have htf : isTruthy v = false := by
      cases h2 : isTruthy v with
      | true => exact absurd h2 ht
      | false => rfl
    have hc : coerceItem v = .obj [] := by simp [coerceItem, htf]
    constructor
    · intro h
      rw [itemOk, hc] at h
      exact absurd h (by decide)
    · intro h
      obtain ⟨⟨r, hr, _⟩, _⟩ := h
      rw [jsGet_of_falsy htf] at hr
      cases hr

theorem isEmpty_true_eq {s : String} (h : s.isEmpty = true) : s = "" := by
  rwa [String.isEmpty_iff] at h

theorem validate_of_error {raw : String} {e : String} (hne : jsTrimS raw ≠ "")
    (hp : parseJson raw = .error e) :
    validateConversationJson raw = if e == "" then "JSON格式错误" else e := by
  have hb : (jsTrimS raw).isEmpty ≠ true := fun hc => hne (isEmpty_true_eq hc)
  unfold validateConversationJson
  rw [if_neg hb, hp]

theorem validate_of_arr {raw : String} {l : List JsonValue} (hne : jsTrimS raw ≠ "")
    (hp : parseJson raw = .ok (.arr l)) :
    validateConversationJson raw = checkItems l 0 := by
  have hb : (jsTrimS raw).isEmpty ≠ true := fun hc => hne (isEmpty_true_eq hc)
  unfold validateConversationJson
  rw [if_neg hb, hp]

/-- Claim C1: the validator accepts exactly the valid inputs — it returns
the empty (no-error) sentinel precisely when the input is blank or parses
as a JSON array all of whose elements carry a truthy allowed `role` and a
truthy `content`; every other input yields a non-empty error string. -/
theorem validate_iff (raw : String) :
    validateConversationJson raw = "" ↔
      (jsTrimS raw = "" ∨
       ∃ l, parseJson raw = .ok (.arr l) ∧ ∀ v ∈ l, SpecValidTurn v) := by
  by_cases hb : (jsTrimS raw).isEmpty = true
  · have h0 : jsTrimS raw = "" := isEmpty_true_eq hb
    unfold validateConversationJson
    rw [if_pos hb]
    simp [h0]
  · have hne : jsTrimS raw ≠ "" := fun h => hb (by rw [h]; rfl)
    cases hp : parseJson raw with
    | error e =>
      rw [validate_of_error hne hp]
      constructor
      · intro h
        exfalso
        by_cases he : (e == "") = true
        · rw [if_pos he] at h
          exact absurd h (by decide)
        · rw [if_neg he] at h
          rw [h] at he
          exact he rfl
      · rintro (h | ⟨l, hl, -⟩)
        · exact absurd h hne
        · simp at hl
    | ok v =>
      cases v with
      | arr l =>
        rw [validate_of_arr hne hp, checkItems_eq_empty_iff l 0]
        constructor
        · intro h
          exact Or.inr ⟨l, rfl, fun v hv => (itemOk_iff_specValidTurn v).1 (h v hv)⟩
        · rintro (h | ⟨l2, hl2, hall⟩)
          · exact absurd h hne
          · injection hl2 with h1
            injection h1 with h2
            subst h2
            exact fun v hv => (itemOk_iff_specValidTurn v).2 (hall v hv)
      | null =>
        have hv : validateConversationJson raw = "必须是数组格式" := by
          have hb2 : (jsTrimS raw).isEmpty ≠ true := hb
          unfold validateConversationJson
          rw [if_neg hb2, hp]
        rw [hv]
        constructor
        · intro h; exact absurd h (by decide)
        · rintro (h | ⟨l, hl, -⟩)
          · exact absurd h hne
          · simp at hl
      | bool b =>
        have hv : validateConversationJson raw = "必须是数组格式" := by
          unfold validateConversationJson
          rw [if_neg hb, hp]
        rw [hv]
        constructor
        · intro h; exact absurd h (by decide)
        · rintro (h | ⟨l, hl, -⟩)
          · exact absurd h hne
          · simp at hl
      | num lit =>
        have hv : validateConversationJson raw = "必须是数组格式" := by
          unfold validateConversationJson
          rw [if_neg hb, hp]
        rw [hv]
        constructor
        · intro h; exact absurd h (by decide)
        · rintro (h | ⟨l, hl, -⟩)
          · exact absurd h hne
          · simp at hl
      | str s =>
        have hv : validateConversationJson raw = "必须是数组格式" := by
          unfold validateConversationJson
          rw [if_neg hb, hp]
        rw [hv]
        constructor
        · intro h; exact absurd h (by decide)
        · rintro (h | ⟨l, hl, -⟩)
          · exact absurd h hne
          · simp at hl
      | obj fs =>
        have hv : validateConversationJson raw = "必须是数组格式" := by
          unfold validateConversationJson
          rw [if_neg hb, hp]
        rw [hv]
        constructor
        · intro h; exact absurd h (by decide)
        · rintro (h | ⟨l, hl, -⟩)
          · exact absurd h hne
          · simp at hl

/-- Claim C4: on non-blank invalid input the validator returns exactly one
error, with parse errors taking priority over the array-shape error, which
takes priority over per-element errors; elements are checked in order, the
missing-field check precedes the role-value check for each element, and the
offending element is referenced by its 1-based index. -/
theorem validate_first_violation (raw : String) (h : jsTrimS raw ≠ "") :
    (∀ e, parseJson raw = .error e →
        validateConversationJson raw = (if e == "" then "JSON格式错误" else e)) ∧
    (∀ v, parseJson raw = .ok v → (∀ l, v ≠ JsonValue.arr l) →
        validateConversationJson raw = "必须是数组格式") ∧
    (∀ l i v, parseJson raw = .ok (.arr l) → l[i]? = some v → itemOk v = false →
        (∀ j w, j < i → l[j]? = some w → itemOk w = true) →
        validateConversationJson raw = specItemError i v) ∧
    (∀ l, parseJson raw = .ok (.arr l) → (∀ v ∈ l, itemOk v = true) →
        validateConversationJson raw = "") := by
  have hb : (jsTrimS raw).isEmpty ≠ true := fun hc => h (isEmpty_true_eq hc)
  refine ⟨?_, ?_, ?_, ?_⟩
  · intro e hp
    exact validate_of_error h hp
  · intro v hp hnone
    cases v with
    | arr l => exact absurd rfl (hnone l)
    | null => unfold validateConversationJson; rw [if_neg hb, hp]
    | bool b => unfold validateConversationJson; rw [if_neg hb, hp]
    | num lit => unfold validateConversationJson; rw [if_neg hb, hp]
    | str s => unfold validateConversationJson; rw [if_neg hb, hp]
    | obj fs => unfold validateConversationJson; rw [if_neg hb, hp]
  · intro l i v hp hget hbad hpre
    rw [validate_of_arr h hp]
    have hfirst := checkItems_first l 0 i v hget hbad hpre
    simpa using hfirst
  · intro l hp hall
    rw [validate_of_arr h hp]
    exact (checkItems_eq_empty_iff l 0).2 hall

/-- Closed instance of `validate_first_violation` discharging its
hypotheses. -/
theorem validate_first_violation_w :
    validateConversationJson "[1]" = specItemError 0 (JsonValue.num "1") :=
  (validate_first_violation "[1]" (by decide)).2.2.1 [JsonValue.num "1"] 0
    (JsonValue.num "1") rfl rfl (by decide)
    (fun j w hj _ => absurd hj (Nat.not_lt_zero j))

/-- Claim C10: the validator is total — a parse failure is caught and
reported as the parser's message (or a generic message when it is empty, so
the result is never the success sentinel), and a falsy element of a parsed
array is treated as an empty object and reported as missing `role` or
`content` at its 1-based index instead of causing a runtime failure. -/
theorem validate_never_throws (raw : String) :
    (∀ e, jsTrimS raw ≠ "" → parseJson raw = .error e →
        validateConversationJson raw = (if e == "" then "JSON格式错误" else e) ∧
        validateConversationJson raw ≠ "") ∧
    (∀ l i v, jsTrimS raw ≠ "" → parseJson raw = .ok (.arr l) →
        l[i]? = some v → isTruthy v = false →
        (∀ j w, j < i → l[j]? = some w → itemOk w = true) →
        validateConversationJson raw = missingMsg (i + 1)) := by
  constructor
  · intro e hne hp
    refine ⟨validate_of_error hne hp, ?_⟩
    rw [validate_of_error hne hp]
    by_cases he : (e == "") = true
    · rw [if_pos he]; decide
    · rw [if_neg he]
      intro hc
      rw [hc] at he
      exact he rfl
  · intro l i v hne hp hget hfalsy hpre
    have hco : coerceItem v = .obj [] := by
      rw [coerceItem, hfalsy]
      simp
    have hro : truthyField (coerceItem v) "role" = false := by
      rw [hco]
      rfl
    have hbad : itemOk v = false := by
      rw [itemOk, hro]
      rfl
    have hspec : specItemError i v = missingMsg (i + 1) := by
      rw [specItemError, hro]
      rfl
    rw [validate_of_arr hne hp]
    have hfirst := checkItems_first l 0 i v hget hbad hpre
    rw [Nat.zero_add] at hfirst
    rw [hspec] at hfirst
    exact hfirst

/-- Closed instance of `validate_never_throws` discharging its hypotheses. -/
theorem validate_never_throws_w :
    validateConversationJson "[null]" = missingMsg 1 :=
  (validate_never_throws "[null]").2 [JsonValue.null] 0 JsonValue.null (by decide)
    rfl rfl rfl (fun j w hj _ => absurd hj (Nat.not_lt_zero j))

/-- Claim C6 counterexample: an element whose `title="role"` attribute is
not the element's first attribute is not matched by the role patterns (the
pattern requires the attribute immediately after the tag name), so the
extractor falls through to the first inter-tag text `first` instead of the
element content `Boss`. -/
theorem roleAttr_position_cex :
    extractTitleFromContent "1/1" "<x>first</x><div moo=\x22x\x22 title=\x22role\x22>Boss</div>" = "first" ∧
    extractTitleFromContent "1/1" "<x>first</x><div moo=\x22x\x22 title=\x22role\x22>Boss</div>" ≠ "Boss" := by
  constructor
  · rfl
  · decide

/-- Claim C7 counterexample: the inter-tag step takes the first `>…<`
segment even when it is whitespace-only, so an input whose first segment
trims to empty falls back to the date title although a later segment
(`Real`) is non-empty after trimming. -/
theorem interTag_first_cex :
    extractTitleFromContent "1/1" "<a>\n</a><b>Real</b>" = "提示词_1/1" ∧
    extractTitleFromContent "1/1" "<a>\n</a><b>Real</b>" ≠ "Real" := by
  constructor
  · rfl
  · decide

/-! Trimming is idempotent; the tag-list invariant. -/

theorem dropWhile_head_false (p : Char → Bool) (l : List Char) :
    ∀ c, (l.dropWhile p).head? = some c → p c = false := by
  induction l with
  | nil => intro c h; simp [List.dropWhile] at h
  | cons a t ih =>
    intro c h
    rw [List.dropWhile_cons] at h
    by_cases hp : p a = true
    · rw [if_pos hp] at h
      exact ih c h
    · rw [if_neg hp] at h
      simp at h
      rw [← h]
      cases hpa : p a with
      | true => exact absurd hpa hp
      | false => rfl

theorem dropWhile_eq_self_of_head (p : Char → Bool) (l : List Char)
    (h : ∀ c, l.head? = some c → p c = false) : l.dropWhile p = l := by
  cases l with
  | nil => rfl
  | cons a t =>
    rw [List.dropWhile_cons, if_neg]
    simp [h a rfl]

theorem dropWhile_getLast (p : Char → Bool) (l : List Char)
    (h : l.dropWhile p ≠ []) : (l.dropWhile p).getLast? = l.getLast? := by
  induction l with
  | nil => simp at h
  | cons a t ih =>
    rw [List.dropWhile_cons]
    by_cases hp : p a = true
    · rw [List.dropWhile_cons, if_pos hp] at h
      rw [if_pos hp, ih h]
      have ht : t ≠ [] := by
        intro hc
        rw [hc] at h
        simp [List.dropWhile] at h
      cases t with
      | nil => exact absurd rfl ht
      | cons b t2 => rw [List.getLast?_cons_cons]
    · rw [if_neg hp]

theorem jsTrimL_idem (l : List Char) : jsTrimL (jsTrimL l) = jsTrimL l := by
  by_cases hz : (l.dropWhile jsWs).reverse.dropWhile jsWs = []
  · show jsTrimL (((l.dropWhile jsWs).reverse.dropWhile jsWs).reverse) =
      ((l.dropWhile jsWs).reverse.dropWhile jsWs).reverse
    rw [hz]
    rfl
  · have hlast_z : ((l.dropWhile jsWs).reverse.dropWhile jsWs).getLast? =
        (l.dropWhile jsWs).head? := by
      rw [dropWhile_getLast jsWs _ hz, List.getLast?_reverse]
    have h1 : (((l.dropWhile jsWs).reverse.dropWhile jsWs).reverse).dropWhile jsWs =
        ((l.dropWhile jsWs).reverse.dropWhile jsWs).reverse := by
      apply dropWhile_eq_self_of_head
      intro c hc
      rw [List.head?_reverse, hlast_z] at hc
      exact dropWhile_head_false jsWs l c hc
    show jsTrimL (((l.dropWhile jsWs).reverse.dropWhile jsWs).reverse) =
      ((l.dropWhile jsWs).reverse.dropWhile jsWs).reverse
    unfold jsTrimL
    rw [h1, List.reverse_reverse,
      dropWhile_eq_self_of_head jsWs _ (dropWhile_head_false jsWs _)]

theorem jsTrimS_idem (s : String) : jsTrimS (jsTrimS s) = jsTrimS s := by
  show (⟨jsTrimL (jsTrimL s.data)⟩ : String) = ⟨jsTrimL s.data⟩
  rw [jsTrimL_idem]

theorem TagInv_nil : TagInv [] :=
  ⟨List.nodup_nil, by simp, by simp⟩

theorem addTag_preserves (s : TagFormState) (h : TagInv s.tags) :
    TagInv (addTag s).tags := by
  show TagInv
    (if jsTrimS s.currentTag ≠ "" ∧ jsTrimS s.currentTag ∉ s.tags ∧ s.tags.length < 10 then
      ({ tags := s.tags ++ [jsTrimS s.currentTag], currentTag := "" } : TagFormState)
     else s).tags
  split
  · rename_i hcond
    obtain ⟨h1, h2, h3⟩ := hcond
    obtain ⟨hn, hw, hl⟩ := h
    refine ⟨?_, ?_, ?_⟩
    · rw [List.nodup_append]
      refine ⟨hn, List.nodup_singleton _, ?_⟩
      intro a ha hb
      simp at hb
      rw [hb] at ha
      exact h2 ha
    · intro t ht
      rcases List.mem_append.1 ht with hta | htb
      · exact hw t hta
      · simp at htb
        rw [htb, jsTrimS_idem]
        exact h1
    · rw [List.length_append]
      simp
      omega
  · exact h

theorem removeTag_preserves (s : TagFormState) (tag : String) (h : TagInv s.tags) :
    TagInv (removeTag s tag).tags := by
  obtain ⟨hn, hw, hl⟩ := h
  refine ⟨hn.filter _, ?_, ?_⟩
  · intro t ht
    exact hw t (List.mem_of_mem_filter ht)
  · exact le_trans (List.length_filter_le _ _) hl

/-- Claim C9: every sequence of tag-editor interactions starting from the
empty tag list keeps the list free of duplicates and of empty or
whitespace-only entries and at most 10 long; an add with a blank input, a
duplicate (after trimming), or a full list leaves the list unchanged. -/
theorem tag_list_invariant :
    (∀ ops : List TagOp, TagInv (applyTagOps [] ops)) ∧
    (∀ tags raw, jsTrimS raw = "" ∨ jsTrimS raw ∈ tags ∨ 10 ≤ tags.length →
        (addTag { tags := tags, currentTag := raw }).tags = tags) := by
  constructor
  · have hstep : ∀ (ops : List TagOp) (tags : List String),
        TagInv tags → TagInv (applyTagOps tags ops) := by
      intro ops
      induction ops with
      | nil => intro tags h; exact h
      | cons op rest ih =>
        intro tags h
        show TagInv (applyTagOps (applyTagOp tags op) rest)
        apply ih
        cases op with
        | add raw => exact addTag_preserves { tags := tags, currentTag := raw } h
        | remove t => exact removeTag_preserves { tags := tags, currentTag := "" } t h
    intro ops
    exact hstep ops [] TagInv_nil
  · intro tags raw hcond
    have hneg : ¬(jsTrimS raw ≠ "" ∧ jsTrimS raw ∉ tags ∧ tags.length < 10) := by
      rcases hcond with h | h | h
      · intro hc; exact hc.1 h
      · intro hc; exact hc.2.1 h
      · intro hc; omega
    unfold addTag
    rw [if_neg hneg]

/-- Closed instance of `tag_list_invariant` discharging its hypotheses. -/
theorem tag_list_invariant_w :
    TagInv (applyTagOps [] [TagOp.add " a ", TagOp.add "a", TagOp.remove "a"]) ∧
    (addTag { tags := ["a"], currentTag := " a " }).tags = ["a"] :=
  ⟨tag_list_invariant.1 _,
   tag_list_invariant.2 ["a"] " a " (Or.inr (Or.inl (by decide)))⟩

/-! Scanning lemmas for the markup-path families. -/

theorem findFirst_cons_none (f : List Char → Option (List Char)) (c : Char)
    (r : List Char) (h : f (c :: r) = none) :
    findFirst f (c :: r) = findFirst f r := by
  show (match f (c :: r) with
        | some x => some x
        | none => findFirst f r) = findFirst f r
  rw [h]

theorem findFirst_cons_some (f : List Char → Option (List Char)) (c : Char)
    (r : List Char) (x : List Char) (h : f (c :: r) = some x) :
    findFirst f (c :: r) = some x := by
  show (match f (c :: r) with
        | some x => some x
        | none => findFirst f r) = some x
  rw [h]

theorem findFirst_skip (f : List Char → Option (List Char))
    (hf : ∀ c r, c ≠ '<' → f (c :: r) = none) :
    ∀ t : List Char, (∀ c ∈ t, c ≠ '<') →
      ∀ rest, findFirst f (t ++ rest) = findFirst f rest := by
  intro t
  induction t with
  | nil => intro _ rest; rfl
  | cons a t2 ih =>
    intro ht rest
    rw [List.cons_append,
      findFirst_cons_none f a (t2 ++ rest) (hf a _ (ht a (List.mem_cons_self a t2))),
      ih (fun c hc => ht c (List.mem_cons_of_mem a hc)) rest]

theorem matchTitleAt_not_lt (c : Char) (r : List Char) (h : c ≠ '<') :
    matchTitleAt (c :: r) = none := by
  simp only [matchTitleAt]
  rw [if_neg (by simp [h])]

theorem matchAttrAt_not_lt (attr : List Char) (c : Char) (r : List Char) (h : c ≠ '<') :
    matchAttrAt attr (c :: r) = none := by
  simp only [matchAttrAt]
  rw [if_neg (by simp [h])]

theorem matchSectionAt_not_lt (c : Char) (r : List Char) (h : c ≠ '<') :
    matchSectionAt (c :: r) = none := by
  simp only [matchSectionAt]
  rw [if_neg (by simp [h])]

theorem matchRoleElemAt_not_lt (c : Char) (r : List Char) (h : c ≠ '<') :
    matchRoleElemAt (c :: r) = none := by
  simp only [matchRoleElemAt]
  rw [if_neg (by simp [h])]

theorem takeWhile_append_stop (p : Char → Bool) (t : List Char) (d : Char)
    (r : List Char) (h : ∀ c ∈ t, p c = true) (hd : p d = false) :
    (t ++ d :: r).takeWhile p = t := by
  induction t with
  | nil => simp [List.takeWhile_cons, hd]
  | cons a t2 ih =>
    rw [List.cons_append, List.takeWhile_cons,
      if_pos (h a (List.mem_cons_self a t2)),
      ih (fun c hc => h c (List.mem_cons_of_mem a hc))]

theorem dropWhile_append_stop (p : Char → Bool) (t : List Char) (d : Char)
    (r : List Char) (h : ∀ c ∈ t, p c = true) (hd : p d = false) :
    (t ++ d :: r).dropWhile p = d :: r := by
  induction t with
  | nil => simp [List.dropWhile_cons, hd]
  | cons a t2 ih =>
    rw [List.cons_append, List.dropWhile_cons,
      if_pos (h a (List.mem_cons_self a t2)),
      ih (fun c hc => h c (List.mem_cons_of_mem a hc))]

theorem jsTrimL_eq_self (l : List Char)
    (h1 : ∀ c, l.head? = some c → jsWs c = false)
    (h2 : ∀ c, l.getLast? = some c → jsWs c = false) : jsTrimL l = l := by
  unfold jsTrimL
  rw [dropWhile_eq_self_of_head jsWs l h1,
    dropWhile_eq_self_of_head jsWs l.reverse
      (fun c hc => h2 c (by rwa [List.head?_reverse] at hc)),
    List.reverse_reverse]

theorem tryRolePatterns_cons_none (p : List Char → Option (List Char))
    (ps : List (List Char → Option (List Char))) (content : List Char)
    (hf : findFirst p content = none) :
    tryRolePatterns (p :: ps) content = tryRolePatterns ps content := by
  show (match findFirst p content with
        | some cap =>
          if (roleCleanup cap).isEmpty then tryRolePatterns ps content
          else roleCleanup cap
        | none => tryRolePatterns ps content) = tryRolePatterns ps content
  rw [hf]

theorem tryRolePatterns_cons_found (p : List Char → Option (List Char))
    (ps : List (List Char → Option (List Char))) (content : List Char)
    (cap : List Char) (hf : findFirst p content = some cap)
    (hne : roleCleanup cap ≠ []) :
    tryRolePatterns (p :: ps) content = roleCleanup cap := by
  show (match findFirst p content with
        | some cap2 =>
          if (roleCleanup cap2).isEmpty then tryRolePatterns ps content
          else roleCleanup cap2
        | none => tryRolePatterns ps content) = roleCleanup cap
  rw [hf]
  show (if (roleCleanup cap).isEmpty = true then tryRolePatterns ps content
        else roleCleanup cap) = roleCleanup cap
  rw [if_neg (by simp [List.isEmpty_iff, hne])]

/-- Claim C6 (amended): when no `<title>` element yields a title, the title
is taken from the content of an element whose `title` (and, by the same
pattern shape, `name`, `id`, or `type`) attribute equals `role`
case-insensitively, provided the attribute is the element's first
attribute immediately after the tag name; the patterns are tried in
attribute-priority order, a `<section>` element whose immediate text begins
with `role:` and a literal `<role>` element also match, and a leading
`role:`/`角色:` prefix is stripped.  The first conjunct proves the generic
first-attribute family; the remaining conjuncts witness the other clauses. -/
theorem roleAttr_first_attribute (today : String) (t : List Char)
    (ht : ∀ c ∈ t, c ≠ '<')
    (h1 : roleCleanup t ≠ [])
    (h2 : (roleCleanup t).length ≤ 50) :
    extractTitleFromContent today ⟨c6Input t⟩ = ⟨roleCleanup t⟩ ∧
    extractTitleFromContent "1/1" "<q name=\x22role\x22>ByName</q>" = "ByName" ∧
    extractTitleFromContent "1/1" "<q id=\x22role\x22>ById</q>" = "ById" ∧
    extractTitleFromContent "1/1" "<q type=\x22role\x22>ByType</q>" = "ByType" ∧
    extractTitleFromContent "1/1" "<q name=\x22role\x22>N</q><q title=\x22role\x22>T</q>" = "T" ∧
    extractTitleFromContent "1/1" "<section>Role: Lead</section>" = "Lead" ∧
    extractTitleFromContent "1/1" "<role>角色: 医生</role>" = "医生" := by
  have hne : t ≠ [] := by
    intro hc
    rw [hc] at h1
    exact h1 rfl
  have hre : (roleCleanup t).isEmpty = false := by
    cases he : (roleCleanup t).isEmpty with
    | true =>
      rw [List.isEmpty_iff] at he
      exact absurd he h1
    | false => rfl
  have hTitle : findFirst matchTitleAt (c6Input t) = none := by
    have e : findFirst matchTitleAt (c6Input t) =
        findFirst matchTitleAt (t ++ "</div>".data) := rfl
    rw [e, findFirst_skip matchTitleAt matchTitleAt_not_lt t ht ("</div>".data)]
    rfl
  have hAttrEval : matchAttrAt "title".data (c6Input t) = some t := by
    have e1 : matchAttrAt "title".data (c6Input t) =
        (if ((t ++ "</div>".data).takeWhile (fun c => !(c == '<'))).isEmpty then none
         else some ((t ++ "</div>".data).takeWhile (fun c => !(c == '<')))) := rfl
    have hcap : (t ++ "</div>".data).takeWhile (fun c => !(c == '<')) = t := by
      have hB : "</div>".data = '<' :: "/div>".data := rfl
      rw [hB]
      exact takeWhile_append_stop _ t '<' _ (fun c hc => by simp [ht c hc]) (by decide)
    rw [e1, hcap, if_neg (by simp [List.isEmpty_iff, hne])]
  have hshape : c6Input t =
      '<' :: ("div title=\x22role\x22>".data ++ t ++ "</div>".data) := rfl
  have hAttrFF : findFirst (matchAttrAt "title".data) (c6Input t) = some t := by
    rw [hshape] at hAttrEval ⊢
    exact findFirst_cons_some _ _ _ t hAttrEval
  have hTry : tryRolePatterns rolePatterns (c6Input t) = roleCleanup t := by
    have hrp : rolePatterns = matchAttrAt "title".data ::
        [matchAttrAt "name".data, matchAttrAt "id".data, matchAttrAt "type".data,
         matchSectionAt, matchRoleElemAt] := rfl
    rw [hrp]
    exact tryRolePatterns_cons_found _ _ _ t hAttrFF h1
  have hxml : xmlTitle (c6Input t) = roleCleanup t := by
    simp only [xmlTitle, hTitle, hTry, hre]
    simp
  have hhead : ∀ c, (c6Input t).head? = some c → jsWs c = false := by
    intro c hc
    rw [hshape] at hc
    simp at hc
    rw [← hc]
    rfl
  have hlast : ∀ c, (c6Input t).getLast? = some c → jsWs c = false := by
    intro c hc
    have e : (c6Input t).getLast? = some '>' := by
      show (("<div title=\x22role\x22>".data ++ t) ++ "</div>".data).getLast? = some '>'
      rw [List.getLast?_append]
      rfl
    rw [e] at hc
    simp at hc
    rw [← hc]
    rfl
  have htrim : jsTrimL (c6Input t) = c6Input t := jsTrimL_eq_self _ hhead hlast
  have hheu : heuristicTitleL (c6Input t) = roleCleanup t := by
    show (match jsTrimL (c6Input t) with
          | '<' :: _ => xmlTitle (c6Input t)
          | _ => mdTitle (c6Input t)) = roleCleanup t
    rw [htrim, hshape]
    exact hxml
  refine ⟨?_, rfl, rfl, rfl, rfl, rfl, rfl⟩
  have hb : ¬((jsTrimL (c6Input t)).isEmpty = true) := by
    rw [htrim, hshape]
    simp
  show (if (jsTrimL (c6Input t)).isEmpty = true then fallbackTitle today
        else truncate50 (preTruncTitle today ⟨c6Input t⟩)) = ⟨roleCleanup t⟩
  rw [if_neg hb]
  have hpre : preTruncTitle today ⟨c6Input t⟩ = ⟨roleCleanup t⟩ := by
    show (if (heuristicTitleL (c6Input t)).isEmpty = true then fallbackTitle today
          else (⟨heuristicTitleL (c6Input t)⟩ : String)) = ⟨roleCleanup t⟩
    rw [hheu, if_neg (by simp [List.isEmpty_iff, h1])]
  rw [hpre]
  show (if 50 < (roleCleanup t).length then
          (⟨(roleCleanup t).take 50 ++ "...".data⟩ : String)
        else ⟨roleCleanup t⟩) = ⟨roleCleanup t⟩
  rw [if_neg (by omega)]

/-- Closed instance of `roleAttr_first_attribute` discharging its
hypotheses. -/
theorem roleAttr_first_attribute_w :
    extractTitleFromContent "1/1" ⟨c6Input "Boss".data⟩ = ⟨roleCleanup "Boss".data⟩ :=
  (roleAttr_first_attribute "1/1" "Boss".data (by decide) (by decide) (by decide)).1

/-- Claim C7 (amended): when neither the `<title>` heuristic nor the role
patterns produce a title, the result is the first `>…<` inter-tag segment
(which may be whitespace-only) with the angle brackets stripped and the
result trimmed; the family below shows the step yields exactly that segment
whenever it trims to something non-empty. -/
theorem interTag_first_segment (today : String) (t : List Char)
    (ht : ∀ c ∈ t, c ≠ '<') (hne : t ≠ [])
    (h1 : jsTrimL (t.filter (fun c => !(c == '>') && !(c == '<'))) ≠ [])
    (h2 : (jsTrimL (t.filter (fun c => !(c == '>') && !(c == '<')))).length ≤ 50) :
    extractTitleFromContent today ⟨c7Input t⟩ =
      ⟨jsTrimL (t.filter (fun c => !(c == '>') && !(c == '<')))⟩ := by
  have hshape : c7Input t = '<' :: 'x' :: '>' :: (t ++ "</x>".data) := rfl
  have hTitle7 : findFirst matchTitleAt (c7Input t) = none := by
    have e : findFirst matchTitleAt (c7Input t) =
        findFirst matchTitleAt (t ++ "</x>".data) := rfl
    rw [e, findFirst_skip matchTitleAt matchTitleAt_not_lt t ht ("</x>".data)]
    rfl
  have hP1 : findFirst (matchAttrAt "title".data) (c7Input t) = none := by
    have e : findFirst (matchAttrAt "title".data) (c7Input t) =
        findFirst (matchAttrAt "title".data) (t ++ "</x>".data) := rfl
    rw [e, findFirst_skip _ (matchAttrAt_not_lt "title".data) t ht ("</x>".data)]
    rfl
  have hP2 : findFirst (matchAttrAt "name".data) (c7Input t) = none := by
    have e : findFirst (matchAttrAt "name".data) (c7Input t) =
        findFirst (matchAttrAt "name".data) (t ++ "</x>".data) := rfl
    rw [e, findFirst_skip _ (matchAttrAt_not_lt "name".data) t ht ("</x>".data)]
    rfl
  have hP3 : findFirst (matchAttrAt "id".data) (c7Input t) = none := by
    have e : findFirst (matchAttrAt "id".data) (c7Input t) =
        findFirst (matchAttrAt "id".data) (t ++ "</x>".data) := rfl
    rw [e, findFirst_skip _ (matchAttrAt_not_lt "id".data) t ht ("</x>".data)]
    rfl
  have hP4 : findFirst (matchAttrAt "type".data) (c7Input t) = none := by
    have e : findFirst (matchAttrAt "type".data) (c7Input t) =
        findFirst (matchAttrAt "type".data) (t ++ "</x>".data) := rfl
    rw [e, findFirst_skip _ (matchAttrAt_not_lt "type".data) t ht ("</x>".data)]
    rfl
  have hP5 : findFirst matchSectionAt (c7Input t) = none := by
    have e : findFirst matchSectionAt (c7Input t) =
        findFirst matchSectionAt (t ++ "</x>".data) := rfl
    rw [e, findFirst_skip _ matchSectionAt_not_lt t ht ("</x>".data)]
    rfl
  have hP6 : findFirst matchRoleElemAt (c7Input t) = none := by
    have e : findFirst matchRoleElemAt (c7Input t) =
        findFirst matchRoleElemAt (t ++ "</x>".data) := rfl
    rw [e, findFirst_skip _ matchRoleElemAt_not_lt t ht ("</x>".data)]
    rfl
  have hTry7 : tryRolePatterns rolePatterns (c7Input t) = [] := by
    have hrp : rolePatterns = matchAttrAt "title".data ::
        matchAttrAt "name".data :: matchAttrAt "id".data :: matchAttrAt "type".data ::
        matchSectionAt :: matchRoleElemAt :: [] := rfl
    rw [hrp, tryRolePatterns_cons_none _ _ _ hP1, tryRolePatterns_cons_none _ _ _ hP2,
      tryRolePatterns_cons_none _ _ _ hP3, tryRolePatterns_cons_none _ _ _ hP4,
      tryRolePatterns_cons_none _ _ _ hP5, tryRolePatterns_cons_none _ _ _ hP6]
    rfl
  have hTextEval : matchTextAt ('>' :: (t ++ "</x>".data)) = some ('>' :: t ++ ['<']) := by
    have e1 : matchTextAt ('>' :: (t ++ "</x>".data)) =
        (if ((t ++ "</x>".data).takeWhile (fun x => !(x == '<'))).isEmpty then none
         else
           match (t ++ "</x>".data).dropWhile (fun x => !(x == '<')) with
           | '<' :: _ =>
             some ('>' :: (t ++ "</x>".data).takeWhile (fun x => !(x == '<')) ++ ['<'])
           | _ => none) := rfl
    have hB : "</x>".data = '<' :: "/x>".data := rfl
    have hcapT : (t ++ "</x>".data).takeWhile (fun x => !(x == '<')) = t := by
      rw [hB]
      exact takeWhile_append_stop _ t '<' _ (fun c hc => by simp [ht c hc]) (by decide)
    have hdropT : (t ++ "</x>".data).dropWhile (fun x => !(x == '<')) =
        '<' :: "/x>".data := by
      rw [hB]
      exact dropWhile_append_stop _ t '<' _ (fun c hc => by simp [ht c hc]) (by decide)
    rw [e1, hcapT, hdropT, if_neg (by simp [List.isEmpty_iff, hne])]
    rfl
  have hText : findFirst matchTextAt (c7Input t) = some ('>' :: t ++ ['<']) := by
    rw [hshape, findFirst_cons_none _ _ _ (by rfl), findFirst_cons_none _ _ _ (by rfl)]
    exact findFirst_cons_some _ _ _ _ hTextEval
  have hstep3 : step3Title (c7Input t) =
      jsTrimL (t.filter (fun c => !(c == '>') && !(c == '<'))) := by
    show (match findFirst matchTextAt (c7Input t) with
          | some m0 => jsTrimL (m0.filter (fun c => !(c == '>') && !(c == '<')))
          | none => []) =
        jsTrimL (t.filter (fun c => !(c == '>') && !(c == '<')))
    rw [hText]
    show jsTrimL (('>' :: t ++ ['<']).filter (fun c => !(c == '>') && !(c == '<'))) =
        jsTrimL (t.filter (fun c => !(c == '>') && !(c == '<')))
    congr 1
    simp [List.filter_cons, List.filter_append]
  have hxml : xmlTitle (c7Input t) =
      jsTrimL (t.filter (fun c => !(c == '>') && !(c == '<'))) := by
    simp only [xmlTitle, hTitle7, hTry7]
    simpa using hstep3
  have hhead : ∀ c, (c7Input t).head? = some c → jsWs c = false := by
    intro c hc
    rw [hshape] at hc
    simp at hc
    rw [← hc]
    rfl
  have hlast : ∀ c, (c7Input t).getLast? = some c → jsWs c = false := by
    intro c hc
    have e : (c7Input t).getLast? = some '>' := by
      show (("<x>".data ++ t) ++ "</x>".data).getLast? = some '>'
      rw [List.getLast?_append]
      rfl
    rw [e] at hc
    simp at hc
    rw [← hc]
    rfl
  have htrim : jsTrimL (c7Input t) = c7Input t := jsTrimL_eq_self _ hhead hlast
  have hheu : heuristicTitleL (c7Input t) =
      jsTrimL (t.filter (fun c => !(c == '>') && !(c == '<'))) := by
    show (match jsTrimL (c7Input t) with
          | '<' :: _ => xmlTitle (c7Input t)
          | _ => mdTitle (c7Input t)) =
        jsTrimL (t.filter (fun c => !(c == '>') && !(c == '<')))
    rw [htrim, hshape]
    exact hxml
  have hb : ¬((jsTrimL (c7Input t)).isEmpty = true) := by
    rw [htrim, hshape]
    simp
  show (if (jsTrimL (c7Input t)).isEmpty = true then fallbackTitle today
        else truncate50 (preTruncTitle today ⟨c7Input t⟩)) =
      ⟨jsTrimL (t.filter (fun c => !(c == '>') && !(c == '<')))⟩
  rw [if_neg hb]
  have hpre : preTruncTitle today ⟨c7Input t⟩ =
      ⟨jsTrimL (t.filter (fun c => !(c == '>') && !(c == '<')))⟩ := by
    show (if (heuristicTitleL (c7Input t)).isEmpty = true then fallbackTitle today
          else (⟨heuristicTitleL (c7Input t)⟩ : String)) =
        ⟨jsTrimL (t.filter (fun c => !(c == '>') && !(c == '<')))⟩
    rw [hheu, if_neg (by simp [List.isEmpty_iff, h1])]
  rw [hpre]
  show (if 50 < (jsTrimL (t.filter (fun c => !(c == '>') && !(c == '<')))).length then
          (⟨(jsTrimL (t.filter (fun c => !(c == '>') && !(c == '<')))).take 50 ++
            "...".data⟩ : String)
        else ⟨jsTrimL (t.filter (fun c => !(c == '>') && !(c == '<')))⟩) =
      ⟨jsTrimL (t.filter (fun c => !(c == '>') && !(c == '<')))⟩
  rw [if_neg (by omega)]

/-- Closed instance of `interTag_first_segment` discharging its
hypotheses. -/
theorem interTag_first_segment_w :
    extractTitleFromContent "1/1" ⟨c7Input "Real".data⟩ =
      ⟨jsTrimL ("Real".data.filter (fun c => !(c == '>') && !(c == '<')))⟩ :=
  interTag_first_segment "1/1" "Real".data (by decide) (by decide) (by decide) (by decide)
